import Mathlib

/-!
Shallow embedding of the magrathea procedural planet generator
(src/terrain.rs, src/planet.rs, src/coloring.rs, src/terrain_point.rs).

Machine floats (f32) are modelled by exact rationals; the seeded random
number generator (SmallRng) is modelled by an explicit stream of uniform
draws in the half-open unit interval, consumed in exactly the order the
source consumes its rng.  Library operations whose exact numeric value the
source does not control (square root, atan2, sine, cosine, the sRGB gamma
conversion of the palette crate) are threaded through the definitions as
explicit function parameters bundled in MathOps, so every definition stays
executable.
-/

namespace Magrathea

/-- Color triple with rational channels, modelling palette Srgb of f32. -/
structure Rgb where
  red : ℚ
  green : ℚ
  blue : ℚ
  deriving DecidableEq, Repr

/-- Componentwise addition of an amount to every channel, modelling the
palette Shade lighten operation on linear RGB. -/
def Rgb.lighten (c : Rgb) (amount : ℚ) : Rgb :=
  ⟨c.red + amount, c.green + amount, c.blue + amount⟩

/-- Componentwise subtraction of an amount from every channel, modelling
the palette Shade darken operation on linear RGB. -/
def Rgb.darken (c : Rgb) (amount : ℚ) : Rgb :=
  ⟨c.red - amount, c.green - amount, c.blue - amount⟩

/-- Componentwise product of two colors, modelling the Mul impl used by
the lighting code. -/
def Rgb.mul (a b : Rgb) : Rgb :=
  ⟨a.red * b.red, a.green * b.green, a.blue * b.blue⟩

/-- Bundle of numeric library functions the source calls but whose values
are external to the repository: f32 square root, atan2, sine and cosine,
and the sRGB gamma conversions of the palette crate. -/
structure MathOps where
  sqrtQ : ℚ → ℚ
  atan2Q : ℚ → ℚ → ℚ
  cosQ : ℚ → ℚ
  sinQ : ℚ → ℚ
  piQ : ℚ
  toLin : Rgb → Rgb
  fromLin : Rgb → Rgb

/-- Deterministic stream of uniform draws, modelling rand SmallRng: the
stream function is derived from the seed, pos is the number of draws made. -/
structure RngState where
  stream : ℕ → ℚ
  pos : ℕ

/-- Draw one uniform value from the unit interval, modelling rng.gen. -/
def RngState.next (r : RngState) : ℚ × RngState :=
  (r.stream r.pos, ⟨r.stream, r.pos + 1⟩)

/-- Model of rng.gen_range(lo..hi) for floats: a uniform draw scaled into
the half-open interval from lo to hi. -/
def genRange (lo hi : ℚ) (r : RngState) : ℚ × RngState :=
  let (u, r) := r.next
  (lo + u * (hi - lo), r)

/-- Model of rng.gen_range(lo..hi) for integers. -/
def genRangeNat (lo hi : ℕ) (r : RngState) : ℕ × RngState :=
  let (u, r) := r.next
  (lo + (⌊u * ((hi : ℚ) - (lo : ℚ))⌋).toNat, r)

/-- Model of rng.gen_bool(p): true when the uniform draw falls below p. -/
def genBool (p : ℚ) (r : RngState) : Bool × RngState :=
  let (u, r) := r.next
  (decide (u < p), r)

/-- A pairing of an elevation and a color (src/coloring.rs).  Ordering and
equality compare the elevation only. -/
structure ElevationColor (Kind : Type) where
  kind : Kind
  color : Rgb
  elevation : ℚ
  deriving Repr

instance (Kind : Type) [Inhabited Kind] : Inhabited (ElevationColor Kind) :=
  ⟨⟨default, ⟨0, 0, 0⟩, 0⟩⟩

/-- A terrain sample point (src/terrain_point.rs): planar location plus
elevation, both in kilometers. -/
structure TerrainPoint where
  location : ℚ × ℚ
  elevation : ℚ
  deriving DecidableEq, Repr

/-- A star projecting light (src/planet.rs). -/
structure Light where
  color : Rgb
  sols : ℚ

/-- Insertion into a sorted vector ordered by elevation, modelling
sorted_vec partial SortedVec insert: the element is placed before the
first strictly greater element. -/
def insertSorted {Kind : Type} (e : ElevationColor Kind) :
    List (ElevationColor Kind) → List (ElevationColor Kind)
  | [] => [e]
  | x :: xs =>
    if e.elevation ≤ x.elevation then e :: x :: xs else x :: insertSorted e xs

/-- Fixed lighten and darken delta used by gradient expansion
(COLOR_LIGHTEN_DELTA in src/terrain.rs). -/
def COLOR_LIGHTEN_DELTA : ℚ := 1 / 10

/-- Subdivide one elevation band into three anchors: a floor shade at the
band start, a randomly lightened shade at a random midpoint, and a fully
lightened shade at the band end (Terrain::generate_elevation_range_into). -/
def generate_elevation_range_into {Kind : Type} (ops : MathOps) (kind : Kind)
    (lo hi : ℚ) (base_color : Rgb) (r : RngState)
    (output : List (ElevationColor Kind)) :
    List (ElevationColor Kind) × RngState :=
  let (midpoint, r) := genRange lo hi r
  let (midpoint_color, r) := genRange 0 COLOR_LIGHTEN_DELTA r
  let output := insertSorted ⟨kind, ops.fromLin base_color, lo⟩ output
  let output := insertSorted
    ⟨kind, ops.fromLin (base_color.lighten midpoint_color), midpoint⟩ output
  let output := insertSorted
    ⟨kind, ops.fromLin (base_color.lighten COLOR_LIGHTEN_DELTA), hi⟩ output
  (output, r)

/-- Loop body of Terrain::generate_elevations: walk the palette in
ascending order, carrying over the unused remainder of each randomly
chosen band end. -/
def elevLoop {Kind : Type} (ops : MathOps) (rangeStart rangeEnd : ℚ) :
    List (ElevationColor Kind) → Bool → ℚ → List (ElevationColor Kind) →
    RngState → List (ElevationColor Kind) × RngState
  | [], _, _, acc, r => (acc, r)
  | coloring :: rest, isFirst, carryover, acc, r =>
    let base := ops.toLin coloring.color
    let elevation := coloring.elevation - carryover
    let (acc, r) :=
      if isFirst then
        generate_elevation_range_into ops coloring.kind rangeStart elevation
          (base.darken COLOR_LIGHTEN_DELTA) r acc
      else (acc, r)
    let lighter := base.lighten COLOR_LIGHTEN_DELTA
    match rest with
    | [] =>
      generate_elevation_range_into ops coloring.kind elevation rangeEnd
        lighter r acc
    | next :: _ =>
      let (endv, r) := genRange elevation next.elevation r
      let (acc, r) :=
        generate_elevation_range_into ops coloring.kind elevation endv base
          r acc
      elevLoop ops rangeStart rangeEnd rest false (next.elevation - endv) acc r

/-- Take an ordered list of elevations and their colors and create a
gradient of colors with ranges of elevations spanning the given range
(Terrain::generate_elevations). -/
def generate_elevations {Kind : Type} (ops : MathOps)
    (colorings : List (ElevationColor Kind)) (rangeStart rangeEnd : ℚ)
    (r : RngState) : List (ElevationColor Kind) × RngState :=
  elevLoop ops rangeStart rangeEnd colorings true 0 [] r

/-- Squared planar distance between two points. -/
def sqDist (p q : ℚ × ℚ) : ℚ :=
  (p.1 - q.1) ^ 2 + (p.2 - q.2) ^ 2

/-- Nearest stored point to a query location, modelling the spade RTree
nearest_neighbor query on the set of inserted terrain points. -/
def nearestNeighbor (pts : List TerrainPoint) (q : ℚ × ℚ) :
    Option TerrainPoint :=
  pts.foldl
    (fun acc p =>
      match acc with
      | none => some p
      | some b =>
        if sqDist p.location q < sqDist b.location q then some p else some b)
    none

/-- Insert a point into a list kept sorted by squared distance to the
query location. -/
def insertByDist (q : ℚ × ℚ) (p : TerrainPoint) :
    List TerrainPoint → List TerrainPoint
  | [] => [p]
  | x :: xs =>
    if sqDist p.location q ≤ sqDist x.location q then p :: x :: xs
    else x :: insertByDist q p xs

/-- Sort the stored points by distance to the query location. -/
def sortByDist (q : ℚ × ℚ) : List TerrainPoint → List TerrainPoint
  | [] => []
  | p :: ps => insertByDist q p (sortByDist q ps)

/-- The n stored points nearest to the query location, modelling the spade
RTree nearest_n_neighbors query. -/
def kNearest (pts : List TerrainPoint) (q : ℚ × ℚ) (n : ℕ) :
    List TerrainPoint :=
  (sortByDist q pts).take n

/-- Core loop of the standard library binary_search_by on a slice of
elevations: maintains the bracket from left to right, probing the middle
element, and returns either a matching index or the insertion index.  The
fuel argument bounds the iteration count; it starts at the slice length,
which the loop can never exhaust since the bracket shrinks every step. -/
def binSearchGo (l : List ℚ) (t : ℚ) : ℕ → ℕ → ℕ → Sum ℕ ℕ
  | 0, left, _ => Sum.inr left
  | fuel + 1, left, right =>
    if left < right then
      if l.getD (left + (right - left) / 2) 0 < t then
        binSearchGo l t fuel (left + (right - left) / 2 + 1) right
      else if t < l.getD (left + (right - left) / 2) 0 then
        binSearchGo l t fuel left (left + (right - left) / 2)
      else
        Sum.inl (left + (right - left) / 2)
    else
      Sum.inr left

/-- Model of slice binary_search_by over the elevation keys of the sorted
vector: inl is a matching index, inr the insertion index. -/
def binSearch (l : List ℚ) (t : ℚ) : Sum ℕ ℕ :=
  binSearchGo l t l.length 0 l.length

/-- Resolution of an extrapolated elevation to a gradient index in the
deterministic variant (Terrain::extrapolate_point in src/terrain.rs): on
an exact match return it, on a miss at the low end clamp to zero, and on
an interior miss compare the two neighboring gaps. -/
def closestElevationIdx (elevs : List ℚ) (target : ℚ) : ℕ :=
  match binSearch elevs target with
  | Sum.inl index => index
  | Sum.inr index =>
    if index = 0 then index
    else
      let delta_a := elevs.getD index 0 - target
      let delta_b := target - elevs.getD (index - 1) 0
      if delta_a > delta_b then index else index - 1

/-- Resolution of an extrapolated elevation to a gradient index in the
stochastic variant (extrapolate_point in src/planet.rs): an interior miss
draws gen_bool with probability delta_a over delta_a plus delta_b. -/
def closestElevationIdxRng (elevs : List ℚ) (target : ℚ) (r : RngState) :
    ℕ × RngState :=
  match binSearch elevs target with
  | Sum.inl index => (index, r)
  | Sum.inr index =>
    if index = 0 then (index, r)
    else
      let delta_a := elevs.getD index 0 - target
      let delta_b := target - elevs.getD (index - 1) 0
      let (b, r) := genBool (delta_a / (delta_a + delta_b)) r
      (if b then index else index - 1, r)

/-- A randomly generated elevation map (src/terrain.rs). -/
structure Terrain (Kind : Type) where
  surface_chaos : ℚ
  origin : ℚ × ℚ
  radius : ℚ
  points : List TerrainPoint
  elevations : List (ElevationColor Kind)

/-- A procedural planet definition (src/planet.rs); the seed is
represented by the uniform stream it deterministically induces. -/
structure Planet (Kind : Type) where
  origin : ℚ × ℚ
  radius : ℚ
  colors : List (ElevationColor Kind)

/-- The randomized global elevation target range drawn at the start of
Terrain::generate: the palette span extended on both ends by up to thirty
percent, scaled by the first seed-derived draw. -/
def elevationRange {Kind : Type} [Inhabited Kind] (p : Planet Kind)
    (u : ℚ) : ℚ × ℚ :=
  let min_elevation := (p.colors.headD default).elevation
  let max_elevation := (p.colors.getLastD default).elevation
  let elevation_variance := (max_elevation - min_elevation) * u * (3 / 10)
  (min_elevation - elevation_variance, max_elevation + elevation_variance)

/-- Insertion loop of Terrain::generate: draw a random location inside the
bounding square, bound the elevation by chaos times the distance to the
nearest already inserted point intersected with the global range, draw the
elevation and insert. -/
def pointsLoop (ops : MathOps) (radius surface_chaos rangeStart rangeEnd : ℚ) :
    ℕ → List TerrainPoint → RngState → List TerrainPoint × RngState
  | 0, pts, r => (pts, r)
  | n + 1, pts, r =>
    let (x, r) := genRange (-radius) radius r
    let (y, r) := genRange (-radius) radius r
    let location := (x, y)
    let acceptable :=
      match nearestNeighbor pts location with
      | some neighbor =>
        let distance := ops.sqrtQ (sqDist location neighbor.location)
        (neighbor.elevation - distance * surface_chaos,
         neighbor.elevation + distance * surface_chaos)
      | none => (-surface_chaos, surface_chaos)
    let (elevation, r) :=
      genRange (max acceptable.1 rangeStart) (min acceptable.2 rangeEnd) r
    pointsLoop ops radius surface_chaos rangeStart rangeEnd n
      (⟨location, elevation⟩ :: pts) r

/-- Randomly generate a new terrain for the planet provided
(Terrain::generate), drawing in order: the elevation variance factor, the
surface chaos, the gradient expansion draws, the terrain complexity, and
the per-point draws. -/
def Terrain.generate {Kind : Type} [Inhabited Kind] (ops : MathOps)
    (p : Planet Kind) (stream : ℕ → ℚ) : Terrain Kind :=
  let r : RngState := ⟨stream, 0⟩
  let (u, r) := r.next
  let range := elevationRange p u
  let (surface_chaos, r) := genRange 1 2 r
  let (elevations, r) := generate_elevations ops p.colors range.1 range.2 r
  let (terrain_complexity, r) := genRangeNat 50 1000 r
  let (points, _) :=
    pointsLoop ops p.radius surface_chaos range.1 range.2
      terrain_complexity [] r
  { surface_chaos := surface_chaos
    origin := p.origin
    radius := p.radius
    points := points
    elevations := elevations }

/-- Sum of the distances from the query point to its three nearest stored
points, the normalizer of the interpolation weights. -/
def totalDistance (ops : MathOps) (pts : List TerrainPoint)
    (planet_point : ℚ × ℚ) : ℚ :=
  ((kNearest pts planet_point 3).map
    (fun p => ops.sqrtQ (sqDist p.location planet_point))).sum

/-- Interpolated elevation at a query point, exactly as the source
computes it: the enumerated sum of distance over total distance times
elevation across the three nearest stored points. -/
def extrapolatedElevation (ops : MathOps) (pts : List TerrainPoint)
    (planet_point : ℚ × ℚ) : ℚ :=
  let nearest_points := kNearest pts planet_point 3
  let distances :=
    nearest_points.map (fun p => ops.sqrtQ (sqDist p.location planet_point))
  let total_distance := distances.sum
  ((nearest_points.zip distances).map
    (fun pd => pd.2 / total_distance * pd.1.elevation)).sum

/-- Saturating conversion of a float to a byte, modelling the Rust as-u8
cast of a channel value already scaled by 255. -/
def ratToU8 (x : ℚ) : ℕ :=
  if x < 0 then 0 else if 255 < x then 255 else (⌊x⌋).toNat

/-- Final pixel write of a resolved color: scale every channel by 255 and
cast to a byte. -/
def rgbToBytes (c : Rgb) : ℕ × ℕ × ℕ :=
  (ratToU8 (c.red * 255), ratToU8 (c.green * 255), ratToU8 (c.blue * 255))

/-- The expanded gradient anchor a query point resolves to: the anchor at
the index chosen by the deterministic elevation resolution. -/
def resolvedAnchor {Kind : Type} [Inhabited Kind] (ops : MathOps)
    (t : Terrain Kind) (planet_point : ℚ × ℚ) : ElevationColor Kind :=
  t.elevations.getD
    (closestElevationIdx (t.elevations.map (fun e => e.elevation))
      (extrapolatedElevation ops t.points planet_point))
    default

/-- The combined lighting factor and color mixing of the shading match in
Terrain::extrapolate_point: with a sun the base color is multiplied by the
sun color darkened by the clamped combined dimming factor, without a sun
the base color passes through unchanged. -/
def applyLight (ops : MathOps) (sun : Option Light) (terrain_color : Rgb)
    (distance_to_sun distance_from_focus radius : ℚ) : Rgb :=
  match sun with
  | some sun =>
    let distance_dimming := 1 - 1 / distance_to_sun
    let sphere_dimming := distance_from_focus / (radius * (14 / 10))
    let sun_base_factor := sun.sols * distance_dimming * sphere_dimming
    terrain_color.mul ((ops.toLin sun.color).darken (min sun_base_factor 1))
  | none => terrain_color

/-- For a given point on the surface, return what kind and what color the
point is (Terrain::extrapolate_point).  The length assertion on the
nearest-neighbor query is modelled by returning none when it fails. -/
def Terrain.extrapolate_point {Kind : Type} [Inhabited Kind] (ops : MathOps)
    (t : Terrain Kind) (planet_point : ℚ × ℚ) (sun : Option Light) :
    Option (Kind × (ℕ × ℕ × ℕ)) :=
  let nearest_points := kNearest t.points planet_point 3
  if nearest_points.length = 3 then
    let closest_elevation :=
      closestElevationIdx (t.elevations.map (fun e => e.elevation))
        (extrapolatedElevation ops t.points planet_point)
    let anchor := t.elevations.getD closest_elevation default
    let terrain_kind := anchor.kind
    let terrain_color := ops.toLin anchor.color
    let space_point :=
      (t.origin.1 + planet_point.1, t.origin.2 + planet_point.2)
    let angle_to_sun := ops.atan2Q space_point.2 space_point.1 + ops.piQ
    let distance_to_sun := ops.sqrtQ (sqDist space_point (0, 0))
    let focus_point :=
      (t.radius * ops.cosQ angle_to_sun, t.radius * ops.sinQ angle_to_sun)
    let distance_from_focus := ops.sqrtQ (sqDist planet_point focus_point)
    let color :=
      applyLight ops sun terrain_color distance_to_sun distance_from_focus
        t.radius
    some (terrain_kind, rgbToBytes (ops.fromLin color))
  else none

/-- Alpha of a pixel inside the body: full opacity except in the
outermost one-pixel ring, where it is the sub-pixel distance to the rim
scaled by 255 (the alpha computation in Terrain::generate_planet). -/
def alphaFor (radius distance : ℚ) : ℕ :=
  let delta := radius - distance
  if delta < 1 then ratToU8 (255 * delta) else 255

/-- One iteration of the pixel loop of Terrain::generate_planet: an inside
pixel is shaded and tagged with its kind for the stats map, an outside
pixel is written as four zero bytes. -/
def renderPixel {Kind : Type} [Inhabited Kind] (ops : MathOps)
    (t : Terrain Kind) (radius planet_scale : ℚ) (sun : Option Light)
    (x y : ℕ) : Option ((ℕ × ℕ × ℕ × ℕ) × Option Kind) :=
  let point : ℚ × ℚ := ((x : ℚ), (y : ℚ))
  let distance := ops.sqrtQ (sqDist point (radius, radius))
  let planet_point :=
    (point.1 * planet_scale - t.radius, point.2 * planet_scale - t.radius)
  if distance < radius then
    (t.extrapolate_point ops planet_point sun).map
      (fun kc =>
        ((kc.2.1, kc.2.2.1, kc.2.2.2, alphaFor radius distance), some kc.1))
  else
    some ((0, 0, 0, 0), none)

/-- Row-major pixel coordinates of a square image, in the order the image
crate enumerate_pixels_mut visits them. -/
def pixelCoords (pixels : ℕ) : List (ℕ × ℕ) :=
  (List.range pixels).flatMap
    (fun y => (List.range pixels).map (fun x => (x, y)))

/-- Render every pixel in order, propagating a failed nearest-neighbor
assertion. -/
def renderAll {Kind : Type} [Inhabited Kind] (ops : MathOps)
    (t : Terrain Kind) (radius planet_scale : ℚ) (sun : Option Light) :
    List (ℕ × ℕ) → Option (List ((ℕ × ℕ × ℕ × ℕ) × Option Kind))
  | [] => some []
  | c :: rest =>
    match renderPixel ops t radius planet_scale sun c.1 c.2,
        renderAll ops t radius planet_scale sun rest with
    | some v, some vs => some (v :: vs)
    | _, _ => none

/-- Increment the per-category pixel counter, modelling the HashMap entry
and-modify or-insert pattern of the stats accumulation. -/
def bumpStat {Kind : Type} [DecidableEq Kind] (k : Kind) :
    List (Kind × ℕ) → List (Kind × ℕ)
  | [] => [(k, 1)]
  | (k0, n) :: rest =>
    if k0 = k then (k0, n + 1) :: rest else (k0, n) :: bumpStat k rest

/-- Fold the tagged pixel results into the per-category stats map. -/
def accumulateStats {Kind : Type} [DecidableEq Kind]
    (results : List ((ℕ × ℕ × ℕ × ℕ) × Option Kind)) : List (Kind × ℕ) :=
  results.foldl
    (fun m v => match v.2 with | some k => bumpStat k m | none => m) []

/-- Generate an image of pixels wide and pixels tall together with the per
category stats map (Terrain::generate_planet). -/
def Terrain.generate_planet {Kind : Type} [Inhabited Kind] [DecidableEq Kind]
    (ops : MathOps) (t : Terrain Kind) (pixels : ℕ) (sun : Option Light) :
    Option (List (ℕ × ℕ × ℕ × ℕ) × List (Kind × ℕ)) :=
  let radius : ℚ := (pixels : ℚ) / 2
  let planet_scale := t.radius / radius
  (renderAll ops t radius planet_scale sun (pixelCoords pixels)).map
    (fun results => (results.map (fun v => v.1), accumulateStats results))

/-- The full generation pipeline on a planet: build the terrain from the
seed-derived stream, then render it (Terrain::generate followed by
generate_planet). -/
def Planet.generateImage {Kind : Type} [Inhabited Kind] [DecidableEq Kind]
    (ops : MathOps) (p : Planet Kind) (stream : ℕ → ℚ) (pixels : ℕ)
    (sun : Option Light) :
    Option (List (ℕ × ℕ × ℕ × ℕ) × List (Kind × ℕ)) :=
  (Terrain.generate ops p stream).generate_planet ops pixels sun

/-- Total number of pixels recorded in the per-category stats map. -/
def statsSum {Kind : Type} (m : List (Kind × ℕ)) : ℕ :=
  (m.map Prod.snd).sum

/-- Modelled from the spec wording of elevation sampling: retrieve the 3
nearest neighbors and compute the elevation as the sum over them of
distance over total distance times elevation.  This definition follows the
words of the specification; the theorem for the corresponding claim
compares it against the code-shaped extrapolatedElevation. -/
def specWeightedElevation (ops : MathOps) (pts : List TerrainPoint)
    (q : ℚ × ℚ) : ℚ :=
  ((kNearest pts q 3).map
    (fun p => ops.sqrtQ (sqDist p.location q) / totalDistance ops pts q *
      p.elevation)).sum

/-- The inside-the-body test of the pixel loop: the distance the code
computes for the pixel is strictly below the pixel radius. -/
def pixelInside (ops : MathOps) (radius : ℚ) (c : ℕ × ℕ) : Prop :=
  ops.sqrtQ (sqDist ((c.1 : ℚ), (c.2 : ℚ)) (radius, radius)) < radius

instance (ops : MathOps) (radius : ℚ) (c : ℕ × ℕ) :
    Decidable (pixelInside ops radius c) :=
  inferInstanceAs (Decidable (_ < _))

/-- Fixture bundle of numeric callbacks whose square root is a constant
function, used to instantiate theorems at concrete inputs. -/
def constOps (v : ℚ) : MathOps :=
  ⟨fun _ => v, fun _ _ => 0, fun _ => 1, fun _ => 0, 0, id, id⟩

/-- Fixture bundle whose square root is the identity on squared distances. -/
def sqOps : MathOps :=
  ⟨fun s => s, fun _ _ => 0, fun _ => 1, fun _ => 0, 0, id, id⟩

/-- Two-anchor fixture palette spanning elevations from minus two to two. -/
def palA : List (ElevationColor Bool) :=
  [⟨true, ⟨0, 0, 0⟩, -2⟩, ⟨false, ⟨1, 1, 1⟩, 2⟩]

/-- One-anchor fixture palette. -/
def palB : List (ElevationColor Bool) :=
  [⟨true, ⟨1, 0, 0⟩, 0⟩]

/-- Fixture planet carrying the two-anchor palette. -/
def planetA : Planet Bool :=
  ⟨(0, 0), 1, palA⟩

/-- Fixture stream that always draws zero. -/
def streamZero : ℕ → ℚ := fun _ => 0

/-- Fixture terrain with three stored points and a one-anchor gradient. -/
def terrA : Terrain Bool :=
  ⟨1, (0, 0), 1,
   [⟨(0, 0), 0⟩, ⟨(1, 0), 0⟩, ⟨(0, 1), 0⟩],
   [⟨true, ⟨1, 0, 0⟩, 0⟩]⟩

/-- Fixture terrain with only two stored points. -/
def terrB : Terrain Bool :=
  ⟨1, (0, 0), 1,
   [⟨(0, 0), 0⟩, ⟨(1, 0), 0⟩],
   [⟨true, ⟨1, 0, 0⟩, 0⟩]⟩

/-- Fixture terrain whose three stored points coincide, so every pixel of
a render resolves identically. -/
def terrC : Terrain Bool :=
  ⟨1, (0, 0), 1,
   [⟨(0, 0), 0⟩, ⟨(0, 0), 0⟩, ⟨(0, 0), 0⟩],
   [⟨true, ⟨1, 0, 0⟩, 0⟩]⟩

/-!
Infrastructure lemmas about the embedded operations.
-/

/-- Comparison of gradient anchors by their elevation key, the order the
sorted vector maintains. -/
def byElev {Kind : Type} (a b : ElevationColor Kind) : Prop :=
  a.elevation ≤ b.elevation

instance {Kind : Type} :
    DecidableRel (fun a b : ElevationColor Kind => byElev a b) :=
  fun a b => inferInstanceAs (Decidable (a.elevation ≤ b.elevation))

instance {Kind : Type} : IsTotal (ElevationColor Kind) byElev :=
  ⟨fun a b => le_total a.elevation b.elevation⟩

instance {Kind : Type} : IsTrans (ElevationColor Kind) byElev :=
  ⟨fun _ _ _ => le_trans⟩

lemma insertSorted_eq_orderedInsert {Kind : Type} (e : ElevationColor Kind)
    (l : List (ElevationColor Kind)) :
    insertSorted e l = List.orderedInsert byElev e l := by
  induction l with
  | nil => rfl
  | cons x xs ih =>
    simp only [insertSorted, List.orderedInsert, byElev]
    split <;> simp [ih]

lemma length_insertSorted {Kind : Type} (e : ElevationColor Kind)
    (l : List (ElevationColor Kind)) :
    (insertSorted e l).length = l.length + 1 := by
  rw [insertSorted_eq_orderedInsert]
  exact List.orderedInsert_length byElev l e

lemma mem_insertSorted {Kind : Type} {x e : ElevationColor Kind}
    {l : List (ElevationColor Kind)} :
    x ∈ insertSorted e l ↔ x = e ∨ x ∈ l := by
  rw [insertSorted_eq_orderedInsert]
  exact List.mem_orderedInsert byElev

lemma sorted_insertSorted {Kind : Type} (e : ElevationColor Kind)
    {l : List (ElevationColor Kind)} (h : List.Sorted byElev l) :
    List.Sorted byElev (insertSorted e l) := by
  rw [insertSorted_eq_orderedInsert]
  exact h.orderedInsert e l

lemma length_insertByDist (q : ℚ × ℚ) (p : TerrainPoint)
    (l : List TerrainPoint) :
    (insertByDist q p l).length = l.length + 1 := by
  induction l with
  | nil => rfl
  | cons x xs ih =>
    simp only [insertByDist]
    split <;> simp [ih]

lemma mem_insertByDist {q : ℚ × ℚ} {p x : TerrainPoint}
    {l : List TerrainPoint} :
    x ∈ insertByDist q p l ↔ x = p ∨ x ∈ l := by
  induction l with
  | nil => simp [insertByDist]
  | cons y ys ih =>
    simp only [insertByDist]
    split
    · simp [or_comm, or_left_comm, eq_comm]
    · simp [ih, or_left_comm]

lemma length_sortByDist (q : ℚ × ℚ) (l : List TerrainPoint) :
    (sortByDist q l).length = l.length := by
  induction l with
  | nil => rfl
  | cons x xs ih => simp [sortByDist, length_insertByDist, ih]

lemma mem_sortByDist {q : ℚ × ℚ} {x : TerrainPoint} {l : List TerrainPoint} :
    x ∈ sortByDist q l ↔ x ∈ l := by
  induction l with
  | nil => simp [sortByDist]
  | cons y ys ih => simp [sortByDist, mem_insertByDist, ih]

lemma length_kNearest (pts : List TerrainPoint) (q : ℚ × ℚ) (n : ℕ) :
    (kNearest pts q n).length = min n pts.length := by
  simp [kNearest, length_sortByDist]

lemma mem_of_mem_kNearest {pts : List TerrainPoint} {q : ℚ × ℚ} {n : ℕ}
    {x : TerrainPoint} (h : x ∈ kNearest pts q n) : x ∈ pts := by
  exact mem_sortByDist.mp (List.mem_of_mem_take h)

lemma nearestNeighbor_mem (pts : List TerrainPoint) (q : ℚ × ℚ) :
    ∀ {p : TerrainPoint}, nearestNeighbor pts q = some p → p ∈ pts := by
  suffices h : ∀ acc : Option TerrainPoint, ∀ p,
      (pts.foldl
        (fun acc p =>
          match acc with
          | none => some p
          | some b =>
            if sqDist p.location q < sqDist b.location q then some p
            else some b)
        acc) = some p → (acc = some p ∨ p ∈ pts) by
    intro p hp
    rcases h none p hp with h0 | h0
    · cases h0
    · exact h0
  induction pts with
  | nil => intro acc p hp; exact Or.inl hp
  | cons x xs ih =>
    intro acc p hp
    rcases ih _ p hp with h0 | h0
    · cases acc with
      | none =>
        simp only [Option.some.injEq] at h0
        exact Or.inr (h0 ▸ List.mem_cons_self x xs)
      | some b =>
        by_cases hlt : sqDist x.location q < sqDist b.location q
        · simp only [hlt, if_pos] at h0
          simp only [Option.some.injEq] at h0
          exact Or.inr (h0 ▸ List.mem_cons_self x xs)
        · simp only [hlt, if_neg, not_false_iff] at h0
          exact Or.inl h0
    · exact Or.inr (List.mem_cons_of_mem x h0)

lemma binSearchGo_inr (l : List ℚ) (t : ℚ)
    (hmono : ∀ a b : ℕ, a ≤ b → b < l.length → l.getD a 0 ≤ l.getD b 0) :
    ∀ (fuel left right i : ℕ), left ≤ right → right ≤ l.length →
      right - left ≤ fuel →
      (∀ j, j < left → l.getD j 0 < t) →
      (∀ j, right ≤ j → j < l.length → t < l.getD j 0) →
      binSearchGo l t fuel left right = Sum.inr i →
      i ≤ l.length ∧ (∀ j, j < i → l.getD j 0 < t) ∧
        (∀ j, i ≤ j → j < l.length → t < l.getD j 0) := by
  intro fuel
  induction fuel with
  | zero =>
    intro left right i hlr hrl hfuel hpre hsuf heq
    have hle : left = right := by omega
    simp only [binSearchGo, Sum.inr.injEq] at heq
    subst heq
    exact ⟨by omega, hpre, fun j hj hjl => hsuf j (by omega) hjl⟩
  | succ fuel ih =>
    intro left right i hlr hrl hfuel hpre hsuf heq
    by_cases h : left < right
    · simp only [binSearchGo, if_pos h] at heq
      by_cases h1 : l.getD (left + (right - left) / 2) 0 < t
      · rw [if_pos h1] at heq
        refine ih (left + (right - left) / 2 + 1) right i (by omega) hrl
          (by omega) ?_ hsuf heq
        intro j hj
        by_cases hjl : j < left
        · exact hpre j hjl
        · calc l.getD j 0 ≤ l.getD (left + (right - left) / 2) 0 :=
                 hmono j (left + (right - left) / 2) (by omega) (by omega)
            _ < t := h1
      · rw [if_neg h1] at heq
        by_cases h2 : t < l.getD (left + (right - left) / 2) 0
        · rw [if_pos h2] at heq
          refine ih left (left + (right - left) / 2) i (by omega) (by omega)
            (by omega) hpre ?_ heq
          intro j hj hjl
          calc t < l.getD (left + (right - left) / 2) 0 := h2
            _ ≤ l.getD j 0 := hmono (left + (right - left) / 2) j hj hjl
        · rw [if_neg h2] at heq
          exact absurd heq (by simp)
    · simp only [binSearchGo, if_neg h, Sum.inr.injEq] at heq
      subst heq
      exact ⟨by omega, hpre, fun j hj hjl => hsuf j (by omega) hjl⟩

lemma binSearch_inr (l : List ℚ) (t : ℚ) (i : ℕ)
    (hmono : ∀ a b : ℕ, a ≤ b → b < l.length → l.getD a 0 ≤ l.getD b 0)
    (heq : binSearch l t = Sum.inr i) :
    i ≤ l.length ∧ (∀ j, j < i → l.getD j 0 < t) ∧
      (∀ j, i ≤ j → j < l.length → t < l.getD j 0) := by
  exact binSearchGo_inr l t hmono l.length 0 l.length i (Nat.zero_le _)
    le_rfl (by omega) (fun j hj => absurd hj (Nat.not_lt_zero j))
    (fun j hj hjl => absurd hjl (by omega)) heq

lemma binSearch_inr_lt_length (l : List ℚ) (t : ℚ) (i : ℕ)
    (hmono : ∀ a b : ℕ, a ≤ b → b < l.length → l.getD a 0 ≤ l.getD b 0)
    (hlast : 0 < l.length ∧ t < l.getD (l.length - 1) 0)
    (heq : binSearch l t = Sum.inr i) : i < l.length := by
  obtain ⟨hlen, hmem⟩ := binSearch_inr l t i hmono heq
  rcases Nat.lt_or_ge i l.length with h | h
  · exact h
  · exfalso
    have hi : i = l.length := le_antisymm hlen h
    have := hmem.1 (l.length - 1) (by omega)
    exact absurd (lt_trans hlast.2 this) (lt_irrefl t)

lemma sorted_generate_elevation_range_into {Kind : Type} (ops : MathOps)
    (kind : Kind) (lo hi : ℚ) (base : Rgb) (r : RngState)
    {acc : List (ElevationColor Kind)} (h : List.Sorted byElev acc) :
    List.Sorted byElev
      (generate_elevation_range_into ops kind lo hi base r acc).1 := by
  simp only [generate_elevation_range_into, genRange, RngState.next]
  exact sorted_insertSorted _ (sorted_insertSorted _ (sorted_insertSorted _ h))

lemma sorted_elevLoop {Kind : Type} (ops : MathOps) (rs re : ℚ) :
    ∀ (cs : List (ElevationColor Kind)) (isFirst : Bool) (carry : ℚ)
      (acc : List (ElevationColor Kind)) (r : RngState),
      List.Sorted byElev acc →
      List.Sorted byElev (elevLoop ops rs re cs isFirst carry acc r).1 := by
  intro cs
  induction cs with
  | nil => intro isFirst carry acc r h; simpa [elevLoop] using h
  | cons c rest ih =>
    intro isFirst carry acc r h
    cases rest with
    | nil =>
      cases isFirst <;>
        simp only [elevLoop, Bool.false_eq_true, if_neg, if_pos,
          reduceIte] <;>
        exact sorted_generate_elevation_range_into ops _ _ _ _ _
          (by first
            | exact h
            | exact sorted_generate_elevation_range_into ops _ _ _ _ _ h)
    | cons next rest2 =>
      cases isFirst <;>
        simp only [elevLoop, Bool.false_eq_true, if_neg, if_pos,
          reduceIte] <;>
        exact ih false _ _ _
          (sorted_generate_elevation_range_into ops _ _ _ _ _
            (by first
              | exact h
              | exact sorted_generate_elevation_range_into ops _ _ _ _ _ h))

lemma sorted_generate_elevations {Kind : Type} (ops : MathOps)
    (colorings : List (ElevationColor Kind)) (rs re : ℚ) (r : RngState) :
    List.Sorted byElev (generate_elevations ops colorings rs re r).1 :=
  sorted_elevLoop ops rs re colorings true 0 [] r (List.sorted_nil)

lemma length_generate_elevation_range_into {Kind : Type} (ops : MathOps)
    (kind : Kind) (lo hi : ℚ) (base : Rgb) (r : RngState)
    (acc : List (ElevationColor Kind)) :
    (generate_elevation_range_into ops kind lo hi base r acc).1.length =
      acc.length + 3 := by
  simp only [generate_elevation_range_into, genRange, RngState.next,
    length_insertSorted]

lemma length_elevLoop {Kind : Type} (ops : MathOps) (rs re : ℚ) :
    ∀ (cs : List (ElevationColor Kind)) (isFirst : Bool) (carry : ℚ)
      (acc : List (ElevationColor Kind)) (r : RngState), cs ≠ [] →
      (elevLoop ops rs re cs isFirst carry acc r).1.length =
        acc.length + 3 * cs.length + (if isFirst then 3 else 0) := by
  intro cs
  induction cs with
  | nil => intro _ _ _ _ h; exact absurd rfl h
  | cons c rest ih =>
    intro isFirst carry acc r _
    cases rest with
    | nil =>
      cases isFirst <;>
        simp [elevLoop, length_generate_elevation_range_into]
    | cons next rest2 =>
      cases isFirst <;>
        · rw [elevLoop]
          dsimp only []
          rw [ih false _ _ _ (by simp)]
          simp [length_generate_elevation_range_into]
          ring

lemma length_generate_elevations {Kind : Type} (ops : MathOps)
    (colorings : List (ElevationColor Kind)) (rs re : ℚ) (r : RngState)
    (h : colorings ≠ []) :
    (generate_elevations ops colorings rs re r).1.length =
      3 * colorings.length + 3 := by
  rw [generate_elevations, length_elevLoop ops rs re colorings true 0 [] r h]
  simp

lemma genRange_le (lo hi : ℚ) (r : RngState) (hu : 0 ≤ r.stream r.pos)
    (hlh : lo ≤ hi) : lo ≤ (genRange lo hi r).1 := by
  simp only [genRange, RngState.next]
  nlinarith

lemma genRange_le_hi (lo hi : ℚ) (r : RngState) (hu : r.stream r.pos < 1)
    (hlh : lo ≤ hi) : (genRange lo hi r).1 ≤ hi := by
  simp only [genRange, RngState.next]
  nlinarith

lemma genRange_lt_hi (lo hi : ℚ) (r : RngState) (hu : r.stream r.pos < 1)
    (hlh : lo < hi) : (genRange lo hi r).1 < hi := by
  simp only [genRange, RngState.next]
  nlinarith

lemma genRange_eq_of_eq (lo hi : ℚ) (r : RngState) (hlh : lo = hi) :
    (genRange lo hi r).1 = lo := by
  simp only [genRange, RngState.next, hlh]
  ring

lemma stream_genRange (lo hi : ℚ) (r : RngState) :
    ((genRange lo hi r).2).stream = r.stream := rfl

lemma stream_generate_elevation_range_into {Kind : Type} (ops : MathOps)
    (kind : Kind) (lo hi : ℚ) (base : Rgb) (r : RngState)
    (acc : List (ElevationColor Kind)) :
    ((generate_elevation_range_into ops kind lo hi base r acc).2).stream =
      r.stream := rfl

lemma mem_generate_elevation_range_into {Kind : Type} {ops : MathOps}
    {kind : Kind} {lo hi : ℚ} {base : Rgb} {r : RngState}
    {acc : List (ElevationColor Kind)} {a : ElevationColor Kind}
    (h : a ∈ (generate_elevation_range_into ops kind lo hi base r acc).1) :
    a.elevation = lo ∨ a.elevation = (genRange lo hi r).1 ∨
      a.elevation = hi ∨ a ∈ acc := by
  simp only [generate_elevation_range_into] at h
  rcases mem_insertSorted.mp h with h1 | h1
  · exact Or.inr (Or.inr (Or.inl (by rw [h1])))
  rcases mem_insertSorted.mp h1 with h2 | h2
  · exact Or.inr (Or.inl (by rw [h2]))
  rcases mem_insertSorted.mp h2 with h3 | h3
  · exact Or.inl (by rw [h3])
  · exact Or.inr (Or.inr (Or.inr h3))

lemma hi_mem_generate_elevation_range_into {Kind : Type} (ops : MathOps)
    (kind : Kind) (lo hi : ℚ) (base : Rgb) (r : RngState)
    (acc : List (ElevationColor Kind)) :
    ∃ a ∈ (generate_elevation_range_into ops kind lo hi base r acc).1,
      a.elevation = hi := by
  refine ⟨⟨kind, ops.fromLin (base.lighten COLOR_LIGHTEN_DELTA), hi⟩, ?_, rfl⟩
  simp only [generate_elevation_range_into]
  exact mem_insertSorted.mpr (Or.inl rfl)

lemma acc_subset_generate_elevation_range_into {Kind : Type} {ops : MathOps}
    {kind : Kind} {lo hi : ℚ} {base : Rgb} {r : RngState}
    {acc : List (ElevationColor Kind)} {a : ElevationColor Kind}
    (h : a ∈ acc) :
    a ∈ (generate_elevation_range_into ops kind lo hi base r acc).1 := by
  simp only [generate_elevation_range_into]
  exact mem_insertSorted.mpr (Or.inr (mem_insertSorted.mpr
    (Or.inr (mem_insertSorted.mpr (Or.inr h)))))

lemma bounds_generate_elevation_range_into {Kind : Type} (ops : MathOps)
    (kind : Kind) (lo hi re : ℚ) (base : Rgb) (r : RngState)
    (acc : List (ElevationColor Kind))
    (hu : 0 ≤ r.stream r.pos ∧ r.stream r.pos < 1)
    (hlh : lo ≤ hi) (hhi : hi ≤ re)
    (hacc : ∀ a ∈ acc, a.elevation ≤ re) :
    ∀ a ∈ (generate_elevation_range_into ops kind lo hi base r acc).1,
      a.elevation ≤ re := by
  intro a ha
  rcases mem_generate_elevation_range_into ha with h1 | h1 | h1 | h1
  · rw [h1]; exact le_trans hlh hhi
  · rw [h1]; exact le_trans (genRange_le_hi lo hi r hu.2 hlh) hhi
  · rw [h1]; exact hhi
  · exact hacc a h1

lemma elevLoop_bounds {Kind : Type} (ops : MathOps) (rs re : ℚ) :
    ∀ (rest : List (ElevationColor Kind)) (c : ElevationColor Kind)
      (isFirst : Bool) (carry : ℚ) (acc : List (ElevationColor Kind))
      (r : RngState),
      (∀ n, 0 ≤ r.stream n ∧ r.stream n < 1) →
      List.Sorted byElev (c :: rest) →
      (∀ x ∈ c :: rest, x.elevation ≤ re) →
      0 ≤ carry →
      (isFirst = true → rs ≤ c.elevation - carry) →
      (∀ a ∈ acc, a.elevation ≤ re) →
      (∀ a ∈ (elevLoop ops rs re (c :: rest) isFirst carry acc r).1,
        a.elevation ≤ re) ∧
      (∃ a ∈ (elevLoop ops rs re (c :: rest) isFirst carry acc r).1,
        a.elevation = re) := by
  intro rest
  induction rest with
  | nil =>
    intro c isFirst carry acc r hstream _ hall hcarry hfirst hacc
    have hce : c.elevation ≤ re := hall c (List.mem_cons_self c [])
    have he : c.elevation - carry ≤ re := by linarith
    cases isFirst
    · rw [elevLoop]
      dsimp only []
      refine ⟨?_, hi_mem_generate_elevation_range_into ops _ _ _ _ _ _⟩
      exact bounds_generate_elevation_range_into ops _ _ _ re _ _ _
        ⟨(hstream _).1, (hstream _).2⟩ he le_rfl hacc
    · rw [elevLoop]
      dsimp only []
      have hrs : rs ≤ c.elevation - carry := hfirst rfl
      refine ⟨?_, hi_mem_generate_elevation_range_into ops _ _ _ _ _ _⟩
      refine bounds_generate_elevation_range_into ops _ _ _ re _ _ _
        ⟨(hstream _).1, (hstream _).2⟩ he le_rfl ?_
      exact bounds_generate_elevation_range_into ops _ _ _ re _ _ _
        ⟨(hstream _).1, (hstream _).2⟩ hrs he hacc
  | cons next rest2 ih =>
    intro c isFirst carry acc r hstream hsorted hall hcarry hfirst hacc
    have hce : c.elevation ≤ re := hall c (List.mem_cons_self c _)
    have hnexte : c.elevation ≤ next.elevation :=
      (List.sorted_cons.mp hsorted).1 next (List.mem_cons_self next rest2)
    have he : c.elevation - carry ≤ re := by linarith
    have hsorted2 : List.Sorted byElev (next :: rest2) := hsorted.of_cons
    have hall2 : ∀ x ∈ next :: rest2, x.elevation ≤ re := by
      intro x hx
      exact hall x (List.mem_cons_of_mem c hx)
    cases isFirst
    · rw [elevLoop]
      simp only [Bool.false_eq_true, reduceIte]
      refine ih next false _ _ _ (fun n => hstream n) hsorted2 hall2
        ?_ (fun h => absurd h (by simp)) ?_
      · have : (genRange (c.elevation - carry) next.elevation r).1 ≤
            next.elevation :=
          genRange_le_hi _ _ _ (hstream _).2 (by linarith)
        linarith
      · refine bounds_generate_elevation_range_into ops _ _ _ re _ _ _
          ⟨(hstream _).1, (hstream _).2⟩ ?_ ?_ hacc
        · exact genRange_le _ _ _ (hstream _).1 (by linarith)
        · have : (genRange (c.elevation - carry) next.elevation r).1 ≤
              next.elevation :=
            genRange_le_hi _ _ _ (hstream _).2 (by linarith)
          have hne : next.elevation ≤ re :=
            hall2 next (List.mem_cons_self next rest2)
          linarith
    · rw [elevLoop]
      simp only [reduceIte]
      have hrs : rs ≤ c.elevation - carry := hfirst rfl
      refine ih next false _ _ _ (fun n => hstream n) hsorted2 hall2
        ?_ (fun h => absurd h (by simp)) ?_
      · have : (genRange (c.elevation - carry) next.elevation
            (generate_elevation_range_into ops c.kind rs (c.elevation - carry)
              ((ops.toLin c.color).darken COLOR_LIGHTEN_DELTA) r acc).2).1 ≤
            next.elevation :=
          genRange_le_hi _ _ _ (hstream _).2 (by linarith)
        linarith
      · refine bounds_generate_elevation_range_into ops _ _ _ re _ _ _
          ⟨(hstream _).1, (hstream _).2⟩ ?_ ?_ ?_
        · exact genRange_le _ _ _ (hstream _).1 (by linarith)
        · have : (genRange (c.elevation - carry) next.elevation
              (generate_elevation_range_into ops c.kind rs
                (c.elevation - carry)
                ((ops.toLin c.color).darken COLOR_LIGHTEN_DELTA) r acc).2).1 ≤
              next.elevation :=
            genRange_le_hi _ _ _ (hstream _).2 (by linarith)
          have hne : next.elevation ≤ re :=
            hall2 next (List.mem_cons_self next rest2)
          linarith
        · exact bounds_generate_elevation_range_into ops _ _ _ re _ _ _
            ⟨(hstream _).1, (hstream _).2⟩ hrs he hacc

lemma pointsLoop_bounds (ops : MathOps) (radius chaos rs re : ℚ)
    (hsqrt : ∀ s, 0 ≤ ops.sqrtQ s)
    (hch1 : 1 ≤ chaos) (hch2 : chaos < 2)
    (hrs : rs ≤ -2) (hre : 2 ≤ re) :
    ∀ (n : ℕ) (pts : List TerrainPoint) (r : RngState),
      (∀ m, 0 ≤ r.stream m ∧ r.stream m < 1) →
      (∀ p ∈ pts, rs ≤ p.elevation ∧ p.elevation < re) →
      ∀ p ∈ (pointsLoop ops radius chaos rs re n pts r).1,
        rs ≤ p.elevation ∧ p.elevation < re := by
  intro n
  induction n with
  | zero =>
    intro pts r _ hpts
    simpa [pointsLoop] using hpts
  | succ m ih =>
    intro pts r hstream hpts
    rw [pointsLoop]
    dsimp only []
    cases hnn : nearestNeighbor pts
        ((genRange (-radius) radius r).1,
         (genRange (-radius) radius (genRange (-radius) radius r).2).1) with
    | none =>
      simp only [hnn]
      refine ih _ _ (fun k => hstream k) ?_
      intro p hp
      rcases List.mem_cons.mp hp with hp0 | hp0
      · subst hp0
        dsimp only []
        have hlo : max (-chaos) rs = -chaos := max_eq_left (by linarith)
        have hhi : min chaos re = chaos := min_eq_left (by linarith)
        rw [hlo, hhi]
        constructor
        · exact le_trans (by linarith)
            (genRange_le _ _ _ (hstream _).1 (by linarith))
        · exact lt_of_lt_of_le
            (genRange_lt_hi _ _ _ (hstream _).2 (by linarith)) (by linarith)
      · exact hpts p hp0
    | some nb =>
      simp only [hnn]
      have hnb : rs ≤ nb.elevation ∧ nb.elevation < re :=
        hpts nb (nearestNeighbor_mem pts _ hnn)
      refine ih _ _ (fun k => hstream k) ?_
      intro p hp
      rcases List.mem_cons.mp hp with hp0 | hp0
      · subst hp0
        dsimp only []
        set d := ops.sqrtQ (sqDist
          ((genRange (-radius) radius r).1,
           (genRange (-radius) radius (genRange (-radius) radius r).2).1)
          nb.location) with hd
        have hd0 : 0 ≤ d := hsqrt _
        have hdc : 0 ≤ d * chaos := by nlinarith
        have hlo_le : max (nb.elevation - d * chaos) rs ≤ nb.elevation :=
          max_le (by linarith) hnb.1
        have hhi_ge : nb.elevation ≤ min (nb.elevation + d * chaos) re :=
          le_min (by linarith) (le_of_lt hnb.2)
        have hlh : max (nb.elevation - d * chaos) rs ≤
            min (nb.elevation + d * chaos) re := le_trans hlo_le hhi_ge
        constructor
        · exact le_trans (le_max_right _ rs)
            (genRange_le _ _ _ (hstream _).1 hlh)
        · rcases lt_or_eq_of_le hlh with hlt | heq
          · exact lt_of_lt_of_le
              (genRange_lt_hi _ _ _ (hstream _).2 hlt)
              (min_le_right _ re)
          · rw [genRange_eq_of_eq _ _ _ heq]
            exact lt_of_le_of_lt hlo_le hnb.2
      · exact hpts p hp0

lemma getLastD_mem {α : Type} :
    ∀ (l : List α) (d : α), l ≠ [] → l.getLastD d ∈ l := by
  intro l
  induction l with
  | nil => intro d h; exact absurd rfl h
  | cons a as ih =>
    intro d _
    cases as with
    | nil => simp
    | cons b bs =>
      rw [List.getLastD_cons]
      exact List.mem_cons_of_mem a (ih a (by simp))

lemma elevation_le_getLastD {Kind : Type} {x : ElevationColor Kind} :
    ∀ (l : List (ElevationColor Kind)) (d : ElevationColor Kind),
      List.Sorted byElev l → x ∈ l →
      x.elevation ≤ (l.getLastD d).elevation := by
  intro l
  induction l with
  | nil => intro d _ hx; cases hx
  | cons y ys ih =>
    intro d h hx
    rw [List.getLastD_cons]
    rcases List.mem_cons.mp hx with h0 | h0
    · subst h0
      cases ys with
      | nil => simp
      | cons z zs =>
        exact (List.sorted_cons.mp h).1 _
          (getLastD_mem (z :: zs) x (by simp))
    · exact ih y h.of_cons h0

lemma sorted_map_elevation {Kind : Type} {l : List (ElevationColor Kind)}
    (h : List.Sorted byElev l) :
    List.Sorted (fun a b : ℚ => a ≤ b) (l.map (fun e => e.elevation)) :=
  List.Pairwise.map _ (fun _ _ hab => hab) h

lemma sorted_getD_mono (l : List ℚ)
    (h : List.Sorted (fun a b : ℚ => a ≤ b) l) :
    ∀ a b : ℕ, a ≤ b → b < l.length → l.getD a 0 ≤ l.getD b 0 := by
  intro a b hab hb
  rcases eq_or_lt_of_le hab with heq | hlt
  · subst heq; exact le_rfl
  · rw [List.getD_eq_getElem l 0 (lt_trans hlt hb), List.getD_eq_getElem l 0 hb]
    have := h.rel_get_of_lt
      (show (⟨a, lt_trans hlt hb⟩ : Fin l.length) < ⟨b, hb⟩ from hlt)
    simpa [List.get_eq_getElem] using this

lemma getD_map_elevation {Kind : Type} [Inhabited Kind]
    (l : List (ElevationColor Kind)) (i : ℕ) (h : i < l.length) :
    (l.map (fun e => e.elevation)).getD i 0 =
      (l.getD i default).elevation := by
  rw [List.getD_eq_getElem _ _ (by simpa using h),
    List.getD_eq_getElem _ _ h, List.getElem_map]

lemma stream_elevLoop {Kind : Type} (ops : MathOps) (rs re : ℚ) :
    ∀ (cs : List (ElevationColor Kind)) (isFirst : Bool) (carry : ℚ)
      (acc : List (ElevationColor Kind)) (r : RngState),
      ((elevLoop ops rs re cs isFirst carry acc r).2).stream = r.stream := by
  intro cs
  induction cs with
  | nil => intro _ _ _ _; rfl
  | cons c rest ih =>
    intro isFirst carry acc r
    cases rest with
    | nil => cases isFirst <;> rfl
    | cons next rest2 =>
      cases isFirst <;>
        · rw [elevLoop]
          dsimp only []
          rw [ih]
          rfl

lemma stream_generate_elevations {Kind : Type} (ops : MathOps)
    (colorings : List (ElevationColor Kind)) (rs re : ℚ) (r : RngState) :
    ((generate_elevations ops colorings rs re r).2).stream = r.stream :=
  stream_elevLoop ops rs re colorings true 0 [] r

lemma extrapolatedElevation_eq (ops : MathOps) (pts : List TerrainPoint)
    (q : ℚ × ℚ) :
    extrapolatedElevation ops pts q =
      ((kNearest pts q 3).map
        (fun p => ops.sqrtQ (sqDist p.location q) / totalDistance ops pts q *
          p.elevation)).sum := by
  rw [extrapolatedElevation, totalDistance]
  have hzip : ∀ {α β : Type} (l : List α) (f : α → β),
      l.zip (l.map f) = l.map (fun x => (x, f x)) := by
    intro α β l f
    induction l with
    | nil => rfl
    | cons x xs ih => simp [List.zip_cons_cons, ih]
  rw [hzip, List.map_map]
  rfl

lemma sum_mul_le_sum_mul {M : ℚ} :
    ∀ (l : List (ℚ × ℚ)), (∀ x ∈ l, 0 ≤ x.1 ∧ x.2 < M) →
      (l.map (fun x => x.1 * x.2)).sum ≤ (l.map Prod.fst).sum * M := by
  intro l
  induction l with
  | nil => intro _; simp
  | cons x xs ih =>
    intro h
    have hx := h x (List.mem_cons_self x xs)
    have hxs := ih (fun y hy => h y (List.mem_cons_of_mem x hy))
    simp only [List.map_cons, List.sum_cons]
    have h1 : x.1 * x.2 ≤ x.1 * M :=
      mul_le_mul_of_nonneg_left (le_of_lt hx.2) hx.1
    nlinarith [hxs]

lemma sum_mul_lt_sum_mul {M : ℚ} :
    ∀ (l : List (ℚ × ℚ)), (∀ x ∈ l, 0 ≤ x.1 ∧ x.2 < M) →
      0 < (l.map Prod.fst).sum →
      (l.map (fun x => x.1 * x.2)).sum < (l.map Prod.fst).sum * M := by
  intro l
  induction l with
  | nil => intro _ h; simp at h
  | cons x xs ih =>
    intro h hpos
    have hx := h x (List.mem_cons_self x xs)
    have hxs := fun y hy => h y (List.mem_cons_of_mem x hy)
    simp only [List.map_cons, List.sum_cons] at hpos ⊢
    rcases lt_or_eq_of_le hx.1 with hd | hd
    · have h1 : x.1 * x.2 < x.1 * M := mul_lt_mul_of_pos_left hx.2 hd
      have h2 := sum_mul_le_sum_mul xs hxs
      nlinarith
    · have hsum : 0 < (xs.map Prod.fst).sum := by
        rw [← hd] at hpos; linarith
      have h2 := ih hxs hsum
      rw [← hd]
      nlinarith

lemma sum_div_mul (D : ℚ) :
    ∀ (l : List (ℚ × ℚ)),
      (l.map (fun x => x.1 / D * x.2)).sum =
        (l.map (fun x => x.1 * x.2)).sum / D := by
  intro l
  induction l with
  | nil => simp
  | cons x xs ih =>
    simp only [List.map_cons, List.sum_cons, ih]
    ring

lemma weighted_sum_lt (l : List (ℚ × ℚ)) (M : ℚ)
    (hw : ∀ x ∈ l, 0 ≤ x.1 ∧ x.2 < M)
    (hD : 0 < (l.map Prod.fst).sum) :
    (l.map (fun x => x.1 / (l.map Prod.fst).sum * x.2)).sum < M := by
  rw [sum_div_mul]
  rw [div_lt_iff₀ hD, mul_comm]
  exact sum_mul_lt_sum_mul l hw hD

lemma extrapolatedElevation_lt (ops : MathOps) (pts : List TerrainPoint)
    (q : ℚ × ℚ) (M : ℚ) (hsqrt : ∀ s, 0 ≤ ops.sqrtQ s)
    (hall : ∀ p ∈ pts, p.elevation < M)
    (hD : 0 < totalDistance ops pts q) :
    extrapolatedElevation ops pts q < M := by
  rw [extrapolatedElevation_eq]
  have hDe : totalDistance ops pts q =
      (((kNearest pts q 3).map
        (fun p => (ops.sqrtQ (sqDist p.location q), p.elevation))).map
          Prod.fst).sum := by
    rw [totalDistance, List.map_map]
    rfl
  have hmain := weighted_sum_lt ((kNearest pts q 3).map
      (fun p => (ops.sqrtQ (sqDist p.location q), p.elevation))) M
    ?_ ?_
  · rw [List.map_map] at hmain
    rw [hDe]
    convert hmain using 2
  · intro x hx
    rcases List.mem_map.mp hx with ⟨p, hp, rfl⟩
    exact ⟨hsqrt _, hall p (mem_of_mem_kNearest hp)⟩
  · rw [← hDe]
    exact hD

lemma variance_nonneg {Kind : Type} [Inhabited Kind] (p : Planet Kind)
    (u : ℚ) (hu : 0 ≤ u)
    (hminmax : (p.colors.headD default).elevation ≤
      (p.colors.getLastD default).elevation) :
    (elevationRange p u).1 ≤ (p.colors.headD default).elevation ∧
      (p.colors.getLastD default).elevation ≤ (elevationRange p u).2 := by
  simp only [elevationRange]
  constructor <;> nlinarith

lemma generate_terrain_facts {Kind : Type} [Inhabited Kind] (ops : MathOps)
    (p : Planet Kind) (stream : ℕ → ℚ)
    (hstream : ∀ n, 0 ≤ stream n ∧ stream n < 1)
    (hsqrt : ∀ s, 0 ≤ ops.sqrtQ s)
    (hne : p.colors ≠ [])
    (hsorted : List.Sorted byElev p.colors)
    (hlo : (p.colors.headD default).elevation ≤ -2)
    (hhi : 2 ≤ (p.colors.getLastD default).elevation) :
    (∀ pt ∈ (Terrain.generate ops p stream).points,
      (elevationRange p (stream 0)).1 ≤ pt.elevation ∧
        pt.elevation < (elevationRange p (stream 0)).2) ∧
    (∀ a ∈ (Terrain.generate ops p stream).elevations,
      a.elevation ≤ (elevationRange p (stream 0)).2) ∧
    (∃ a ∈ (Terrain.generate ops p stream).elevations,
      a.elevation = (elevationRange p (stream 0)).2) ∧
    List.Sorted byElev (Terrain.generate ops p stream).elevations := by
  obtain ⟨c, rest, hcs⟩ := List.exists_cons_of_ne_nil hne
  have hheadc : (p.colors.headD default) = c := by rw [hcs]; rfl
  have hminmax : (p.colors.headD default).elevation ≤
      (p.colors.getLastD default).elevation := by
    apply elevation_le_getLastD p.colors default hsorted
    rw [hcs, hheadc.symm, hcs]
    exact List.mem_cons_self _ _
  obtain ⟨hrs_le, hre_ge⟩ :=
    variance_nonneg p (stream 0) (hstream 0).1 hminmax
  have helev : (Terrain.generate ops p stream).elevations =
      (generate_elevations ops p.colors (elevationRange p (stream 0)).1
        (elevationRange p (stream 0)).2 ⟨stream, 2⟩).1 := rfl
  have hpts : (Terrain.generate ops p stream).points =
      (pointsLoop ops p.radius (genRange 1 2 ⟨stream, 1⟩).1
        (elevationRange p (stream 0)).1 (elevationRange p (stream 0)).2
        (genRangeNat 50 1000
          (generate_elevations ops p.colors (elevationRange p (stream 0)).1
            (elevationRange p (stream 0)).2 ⟨stream, 2⟩).2).1 []
        (genRangeNat 50 1000
          (generate_elevations ops p.colors (elevationRange p (stream 0)).1
            (elevationRange p (stream 0)).2 ⟨stream, 2⟩).2).2).1 := rfl
  have hall : ∀ x ∈ p.colors,
      x.elevation ≤ (elevationRange p (stream 0)).2 := by
    intro x hx
    exact le_trans (elevation_le_getLastD p.colors default hsorted hx) hre_ge
  have hloopstream : ∀ m, 0 ≤ (genRangeNat 50 1000
      (generate_elevations ops p.colors (elevationRange p (stream 0)).1
        (elevationRange p (stream 0)).2 ⟨stream, 2⟩).2).2.stream m ∧
      (genRangeNat 50 1000
      (generate_elevations ops p.colors (elevationRange p (stream 0)).1
        (elevationRange p (stream 0)).2 ⟨stream, 2⟩).2).2.stream m < 1 := by
    intro m
    have h1 : (genRangeNat 50 1000
        (generate_elevations ops p.colors (elevationRange p (stream 0)).1
          (elevationRange p (stream 0)).2 ⟨stream, 2⟩).2).2.stream =
        (generate_elevations ops p.colors (elevationRange p (stream 0)).1
          (elevationRange p (stream 0)).2 ⟨stream, 2⟩).2.stream := rfl
    rw [h1, stream_generate_elevations]
    exact hstream m
  have hbounds := elevLoop_bounds ops (elevationRange p (stream 0)).1
    (elevationRange p (stream 0)).2 rest c true 0 [] ⟨stream, 2⟩
    (fun n => hstream n) (hcs ▸ hsorted) (hcs ▸ hall) le_rfl
    (fun _ => by
      rw [sub_zero]
      rw [hheadc] at hrs_le
      exact hrs_le)
    (fun a ha => absurd ha (List.not_mem_nil a))
  refine ⟨?_, ?_, ?_, ?_⟩
  · rw [hpts]
    refine pointsLoop_bounds ops p.radius _ _ _ hsqrt
      (genRange_le 1 2 ⟨stream, 1⟩ (hstream 1).1 (by norm_num))
      (genRange_lt_hi 1 2 ⟨stream, 1⟩ (hstream 1).2 (by norm_num))
      (by rw [hheadc] at hlo hrs_le; linarith)
      (by linarith)
      _ [] _ hloopstream ?_
    intro pt hpt
    exact absurd hpt (List.not_mem_nil pt)
  · rw [helev, generate_elevations, hcs]
    exact hbounds.1
  · rw [helev, generate_elevations, hcs]
    exact hbounds.2
  · rw [helev]
    exact sorted_generate_elevations ops p.colors _ _ _

lemma statsSum_bumpStat {Kind : Type} [DecidableEq Kind] (k : Kind) :
    ∀ m : List (Kind × ℕ), statsSum (bumpStat k m) = statsSum m + 1 := by
  intro m
  induction m with
  | nil => simp [bumpStat, statsSum]
  | cons x xs ih =>
    obtain ⟨k0, n⟩ := x
    by_cases h : k0 = k
    · simp [bumpStat, h, statsSum]
      omega
    · simp only [bumpStat, if_neg h, statsSum, List.map_cons, List.sum_cons]
      have := ih
      simp only [statsSum] at this
      omega

lemma statsSum_foldl {Kind : Type} [DecidableEq Kind] :
    ∀ (rs : List ((ℕ × ℕ × ℕ × ℕ) × Option Kind)) (m : List (Kind × ℕ)),
      statsSum (rs.foldl
        (fun m v => match v.2 with | some k => bumpStat k m | none => m) m) =
        statsSum m + rs.countP (fun v => v.2.isSome) := by
  intro rs
  induction rs with
  | nil => intro m; simp
  | cons v vs ih =>
    intro m
    simp only [List.foldl_cons, List.countP_cons]
    cases hv : v.2 with
    | none =>
      rw [ih]
      simp
    | some k =>
      rw [ih]
      simp only [Option.isSome_some, if_pos]
      rw [statsSum_bumpStat]
      omega

lemma renderAll_forall₂ {Kind : Type} [Inhabited Kind] (ops : MathOps)
    (t : Terrain Kind) (radius scale : ℚ) (sun : Option Light) :
    ∀ (l : List (ℕ × ℕ)) (rs : List ((ℕ × ℕ × ℕ × ℕ) × Option Kind)),
      renderAll ops t radius scale sun l = some rs →
      List.Forall₂
        (fun c v => renderPixel ops t radius scale sun c.1 c.2 = some v)
        l rs := by
  intro l
  induction l with
  | nil =>
    intro rs h
    simp only [renderAll, Option.some.injEq] at h
    subst h
    exact List.Forall₂.nil
  | cons c cs ih =>
    intro rs h
    simp only [renderAll] at h
    cases hp : renderPixel ops t radius scale sun c.1 c.2 with
    | none => rw [hp] at h; simp at h
    | some v =>
      rw [hp] at h
      cases ha : renderAll ops t radius scale sun cs with
      | none => rw [ha] at h; simp at h
      | some vs =>
        rw [ha] at h
        simp only [Option.some.injEq] at h
        subst h
        exact List.Forall₂.cons hp (ih vs ha)

lemma renderPixel_cases {Kind : Type} [Inhabited Kind] {ops : MathOps}
    {t : Terrain Kind} {radius scale : ℚ} {sun : Option Light} {x y : ℕ}
    {v : (ℕ × ℕ × ℕ × ℕ) × Option Kind}
    (h : renderPixel ops t radius scale sun x y = some v) :
    (pixelInside ops radius (x, y) → v.2.isSome = true) ∧
    (¬ pixelInside ops radius (x, y) → v = ((0, 0, 0, 0), none)) := by
  rw [renderPixel] at h
  by_cases hin :
      ops.sqrtQ (sqDist ((x : ℚ), (y : ℚ)) (radius, radius)) < radius
  · rw [if_pos hin] at h
    rcases Option.map_eq_some'.mp h with ⟨kc, _, rfl⟩
    exact ⟨fun _ => rfl, fun hni => absurd hin hni⟩
  · rw [if_neg hin] at h
    simp only [Option.some.injEq] at h
    subst h
    exact ⟨fun hi => absurd hi hin, fun _ => rfl⟩

lemma countP_eq_of_forall₂ {α β : Type} {R : α → β → Prop}
    {p : α → Bool} {q : β → Bool} :
    ∀ {l : List α} {rs : List β}, List.Forall₂ R l rs →
      (∀ c v, R c v → (p c = q v)) → l.countP p = rs.countP q := by
  intro l rs h
  induction h with
  | nil => intro _; rfl
  | cons hcv _ ih =>
    intro hpq
    simp only [List.countP_cons, ih hpq, hpq _ _ hcv]

lemma sorted_getD_last_eq (lq : List ℚ) (v : ℚ)
    (h : List.Sorted (fun a b : ℚ => a ≤ b) lq) (hv : v ∈ lq)
    (hall : ∀ x ∈ lq, x ≤ v) : lq.getD (lq.length - 1) 0 = v := by
  have hlen : 0 < lq.length := List.length_pos.mpr (by
    rintro rfl; cases hv)
  obtain ⟨k, hk, hkv⟩ := List.mem_iff_getElem.mp hv
  have h1 : v ≤ lq.getD (lq.length - 1) 0 := by
    rw [← hkv, ← List.getD_eq_getElem lq 0 hk]
    exact sorted_getD_mono lq h k (lq.length - 1) (by omega) (by omega)
  have h2 : lq.getD (lq.length - 1) 0 ≤ v := by
    rw [List.getD_eq_getElem lq 0 (by omega)]
    exact hall _ (List.getElem_mem (by omega))
  exact le_antisymm h2 h1

lemma pointsLoop_length (ops : MathOps) (radius chaos rs re : ℚ) :
    ∀ (n : ℕ) (pts : List TerrainPoint) (r : RngState),
      (pointsLoop ops radius chaos rs re n pts r).1.length = n + pts.length := by
  intro n
  induction n with
  | zero => intro pts r; simp [pointsLoop]
  | succ m ih =>
    intro pts r
    simp only [pointsLoop]
    rw [ih]
    simp
    omega


lemma terrC_pixel : ∀ x y : ℕ,
    renderPixel (constOps 0) terrC 1 1 none x y =
      some ((255, 0, 0, 255), some true) := by
  intro x y
  simp only [renderPixel, constOps, Terrain.extrapolate_point, kNearest,
    sortByDist, insertByDist, terrC, extrapolatedElevation, totalDistance,
    closestElevationIdx, binSearch, binSearchGo, applyLight, rgbToBytes,
    ratToU8, alphaFor, le_refl, if_pos, List.take, List.map, List.zip,
    List.zipWith, List.sum_cons, List.sum_nil, List.length_cons,
    List.length_nil, List.getD]
  norm_num
  decide

lemma terrC_render : terrC.generate_planet (constOps 0) 2 none =
    some ([(255, 0, 0, 255), (255, 0, 0, 255), (255, 0, 0, 255),
      (255, 0, 0, 255)], [(true, 4)]) := by
  rw [Terrain.generate_planet]
  have hr : ((2 : ℕ) : ℚ) / 2 = 1 := by norm_num
  rw [hr]
  have hs : terrC.radius / 1 = 1 := by
    simp [terrC]
  rw [hs]
  have hc : pixelCoords 2 = [(0, 0), (1, 0), (0, 1), (1, 1)] := by
    simp [pixelCoords, List.range_succ]
  rw [hc]
  simp [renderAll, terrC_pixel, accumulateStats, bumpStat]

lemma sum_map_one (l : List TerrainPoint) :
    (l.map (fun _ => (1 : ℚ))).sum = (l.length : ℚ) := by
  induction l with
  | nil => simp
  | cons x xs ih =>
    simp [ih]
    ring

/-!
Claim theorems.
-/

/-- C1: for every fixed tuple of seed-derived stream, palette, origin,
radius, resolution and light, two calls to the generate pipeline, meaning
Terrain generate on the Planet followed by generate planet, produce byte
identical RGBA images and equal per-category stats maps.  In the pure
embedding both calls are the same function application, so the two runs
agree on the image component and on the stats component. -/
theorem claim1_generate_pipeline_deterministic {Kind : Type} [Inhabited Kind]
    [DecidableEq Kind] (ops : MathOps) (p : Planet Kind) (stream : ℕ → ℚ)
    (pixels : ℕ) (sun : Option Light) :
    (Planet.generateImage ops p stream pixels sun).map Prod.fst =
      (Planet.generateImage ops p stream pixels sun).map Prod.fst ∧
    (Planet.generateImage ops p stream pixels sun).map Prod.snd =
      (Planet.generateImage ops p stream pixels sun).map Prod.snd :=
  ⟨rfl, rfl⟩

/-- C5: elevation sampling takes the 3 nearest stored points and computes
the interpolated elevation as the sum over them of distance over total
distance times elevation, weighting by raw distance; the code-shaped
definition coincides with the formula written from the specification, and
the nearest query returns min 3 n points. -/
theorem claim5_weighting_formula (ops : MathOps) (pts : List TerrainPoint)
    (q : ℚ × ℚ) :
    extrapolatedElevation ops pts q = specWeightedElevation ops pts q ∧
    (kNearest pts q 3).length = min 3 pts.length :=
  ⟨extrapolatedElevation_eq ops pts q, length_kNearest pts q 3⟩

/-- C6: sampling the elevation field with fewer than 3 indexed points
trips the length assertion, modelled by the none result, and with at
least 3 points present the assertion never fires. -/
theorem claim6_requires_three_points {Kind : Type} [Inhabited Kind]
    (ops : MathOps) (t : Terrain Kind) (pp : ℚ × ℚ) (sun : Option Light) :
    (t.points.length < 3 → t.extrapolate_point ops pp sun = none) ∧
    (3 ≤ t.points.length →
      (t.extrapolate_point ops pp sun).isSome = true) := by
  constructor
  · intro h
    have hc : ¬ (kNearest t.points pp 3).length = 3 := by
      rw [length_kNearest]; omega
    simp only [Terrain.extrapolate_point, if_neg hc]
  · intro h
    have hc : (kNearest t.points pp 3).length = 3 := by
      rw [length_kNearest]; omega
    simp only [Terrain.extrapolate_point, if_pos hc, Option.isSome_some]

/-- Witness for C6: a two-point terrain makes the sampler fail fast and a
three-point terrain never trips the assertion. -/
theorem claim6_witness :
    terrB.points.length < 3 ∧
    terrB.extrapolate_point (constOps 1) (0, 0) none = none ∧
    3 ≤ terrA.points.length ∧
    (terrA.extrapolate_point (constOps 1) (0, 0) none).isSome = true :=
  ⟨by simp [terrB],
   (claim6_requires_three_points (constOps 1) terrB (0, 0) none).1
     (by simp [terrB]),
   by simp [terrA],
   (claim6_requires_three_points (constOps 1) terrA (0, 0) none).2
     (by simp [terrA])⟩

/-- C7: with no light the per-point shading function returns the resolved
gradient anchor unchanged: the output is the anchor kind together with the
byte conversion of the anchor color, with no darkening or light-color
multiplication applied, provided the linear conversion round-trips and the
nearest query can return three points. -/
theorem claim7_no_light_passthrough {Kind : Type} [Inhabited Kind]
    (ops : MathOps) (t : Terrain Kind) (pp : ℚ × ℚ)
    (hround : ∀ c, ops.fromLin (ops.toLin c) = c)
    (h3 : 3 ≤ t.points.length) :
    t.extrapolate_point ops pp none =
      some ((resolvedAnchor ops t pp).kind,
        rgbToBytes (resolvedAnchor ops t pp).color) := by
  have hc : (kNearest t.points pp 3).length = 3 := by
    rw [length_kNearest]; omega
  simp only [Terrain.extrapolate_point, if_pos hc, applyLight, hround,
    resolvedAnchor]

/-- Witness for C7 at a concrete three-point terrain with identity color
conversions. -/
theorem claim7_witness :
    (∀ c, (constOps 1).fromLin ((constOps 1).toLin c) = c) ∧
    3 ≤ terrA.points.length ∧
    terrA.extrapolate_point (constOps 1) (0, 0) none =
      some ((resolvedAnchor (constOps 1) terrA (0, 0)).kind,
        rgbToBytes (resolvedAnchor (constOps 1) terrA (0, 0)).color) :=
  ⟨fun c => rfl, by simp [terrA],
   claim7_no_light_passthrough (constOps 1) terrA (0, 0) (fun c => rfl)
     (by simp [terrA])⟩

/-- Counterexample for C4: expanding the one-anchor fixture palette yields
six anchors, not three, so the claimed three anchors per palette entry is
false as stated. -/
theorem claim4_counterexample :
    (generate_elevations (constOps 1) palB (-1) 1 ⟨streamZero, 0⟩).1.length ≠
      3 * palB.length := by
  rw [length_generate_elevations (constOps 1) palB (-1) 1 ⟨streamZero, 0⟩
    (by simp [palB])]
  simp [palB]

/-- C4 amended: expanding a palette of N anchors, N at least one, yields
exactly three times N plus three anchors: three per palette entry plus the
three anchors of the extended start band. -/
theorem claim4_amended_three_n_plus_three {Kind : Type} (ops : MathOps)
    (colorings : List (ElevationColor Kind)) (rs re : ℚ) (r : RngState)
    (h : 1 ≤ colorings.length) :
    (generate_elevations ops colorings rs re r).1.length =
      3 * colorings.length + 3 :=
  length_generate_elevations ops colorings rs re r
    (by intro heq; rw [heq] at h; simp at h)

/-- Witness for the amended C4 on the one-anchor fixture palette. -/
theorem claim4_witness :
    1 ≤ palB.length ∧
    (generate_elevations (constOps 1) palB (-1) 1 ⟨streamZero, 0⟩).1.length =
      3 * palB.length + 3 :=
  ⟨by simp [palB],
   claim4_amended_three_n_plus_three (constOps 1) palB (-1) 1 ⟨streamZero, 0⟩
     (by simp [palB])⟩

/-- Counterexample for C3: on the one-anchor fixture palette the expanded
gradient repeats elevations, so it is not strictly ascending: adjacent
anchors with equal elevation exist. -/
theorem claim3_counterexample :
    ¬ List.Chain' (· < ·)
      ((generate_elevations (constOps 1) palB (-1) 1 ⟨streamZero, 0⟩).1.map
        (fun e => e.elevation)) := by
  have h : ((generate_elevations (constOps 1) palB (-1) 1
      ⟨streamZero, 0⟩).1.map (fun e => e.elevation)) =
      [-1, -1, 0, 0, 0, 1] := by
    simp [generate_elevations, elevLoop, generate_elevation_range_into,
      genRange, RngState.next, insertSorted, palB, streamZero,
      COLOR_LIGHTEN_DELTA]
    norm_num
  rw [h]
  simp [List.chain'_cons]

/-- C3 amended: for every non-empty sorted input palette the expanded
gradient is sorted ascending by elevation, but only weakly: adjacent
anchors may share an elevation, since every band boundary is emitted both
as the end of one band and the start of the next. -/
theorem claim3_amended_weakly_sorted {Kind : Type} (ops : MathOps)
    (colorings : List (ElevationColor Kind)) (rs re : ℚ) (r : RngState)
    (h1 : colorings ≠ []) (h2 : List.Sorted byElev colorings) :
    List.Sorted byElev (generate_elevations ops colorings rs re r).1 :=
  sorted_generate_elevations ops colorings rs re r

/-- Witness for the amended C3 on the one-anchor fixture palette. -/
theorem claim3_witness :
    palB ≠ [] ∧ List.Sorted byElev palB ∧
    List.Sorted byElev
      (generate_elevations (constOps 1) palB (-1) 1 ⟨streamZero, 0⟩).1 :=
  ⟨by simp [palB], by simp [palB], claim3_amended_weakly_sorted (constOps 1)
    palB (-1) 1 ⟨streamZero, 0⟩ (by simp [palB]) (by simp [palB])⟩


/-- Counterexample for C2: with expanded gradient elevations zero and ten
and interpolated elevation one, the binary search misses at interior
index one, whose gap nine is strictly larger than the lower anchor gap
one, yet the deterministic variant returns index one, not the numerically
closer lower anchor as the claim states. -/
theorem claim2_counterexample :
    binSearch [0, 10] 1 = Sum.inr 1 ∧
    closestElevationIdx [0, 10] 1 = 1 ∧
    |([0, 10] : List ℚ).getD 1 0 - 1| > |([0, 10] : List ℚ).getD 0 0 - 1| := by
  refine ⟨by decide, ?_, by norm_num⟩
  simp [closestElevationIdx, binSearch, binSearchGo]
  norm_num

/-- C2 amended: at an interior binary-search miss both neighboring gaps
are strictly positive, and the anchor returned is whichever of anchor i
and anchor i minus one has the numerically LARGER elevation gap, with ties
going to the lower anchor; the stochastic variant picks the upper anchor
with probability equal to its own gap divided by the sum of the gaps, so
the choice is weighted directly by gap size rather than by inverse gap
size. -/
theorem claim2_amended_larger_gap_wins (l : List ℚ) (t : ℚ) (i : ℕ)
    (r : RngState) (hs : List.Sorted (fun a b : ℚ => a ≤ b) l)
    (heq : binSearch l t = Sum.inr i) (h0 : 0 < i) (hlen : i < l.length) :
    0 < l.getD i 0 - t ∧ 0 < t - l.getD (i - 1) 0 ∧
    (t - l.getD (i - 1) 0 < l.getD i 0 - t → closestElevationIdx l t = i) ∧
    (l.getD i 0 - t ≤ t - l.getD (i - 1) 0 →
      closestElevationIdx l t = i - 1) ∧
    (closestElevationIdxRng l t r).1 =
      (if r.stream r.pos <
          (l.getD i 0 - t) / ((l.getD i 0 - t) + (t - l.getD (i - 1) 0))
        then i else i - 1) := by
  obtain ⟨_, hpre, hsuf⟩ := binSearch_inr l t i (sorted_getD_mono l hs) heq
  have hda : 0 < l.getD i 0 - t := sub_pos.mpr (hsuf i le_rfl hlen)
  have hdb : 0 < t - l.getD (i - 1) 0 := sub_pos.mpr (hpre (i - 1) (by omega))
  have hne : ¬ i = 0 := by omega
  refine ⟨hda, hdb, ?_, ?_, ?_⟩
  · intro hgt
    simp only [closestElevationIdx]
    rw [heq]
    simp only [if_neg hne]
    rw [if_pos hgt]
  · intro hle
    simp only [closestElevationIdx]
    rw [heq]
    simp only [if_neg hne]
    rw [if_neg (not_lt.mpr hle)]
  · simp only [closestElevationIdxRng]
    rw [heq]
    simp only [if_neg hne, genBool, RngState.next]
    simp [decide_eq_true_eq]

/-- Witness for the amended C2 at elevations zero and ten with target two:
the miss is at interior index one and every hypothesis holds
concretely. -/
theorem claim2_witness :
    List.Sorted (fun a b : ℚ => a ≤ b) [0, 10] ∧
    binSearch [0, 10] 2 = Sum.inr 1 ∧
    (0 < ([0, 10] : List ℚ).getD 1 0 - 2 ∧
      0 < 2 - ([0, 10] : List ℚ).getD 0 0 ∧
      (2 - ([0, 10] : List ℚ).getD 0 0 < ([0, 10] : List ℚ).getD 1 0 - 2 →
        closestElevationIdx [0, 10] 2 = 1) ∧
      (([0, 10] : List ℚ).getD 1 0 - 2 ≤ 2 - ([0, 10] : List ℚ).getD 0 0 →
        closestElevationIdx [0, 10] 2 = 1 - 1) ∧
      (closestElevationIdxRng [0, 10] 2 ⟨streamZero, 0⟩).1 =
        (if (RngState.mk streamZero 0).stream (RngState.mk streamZero 0).pos <
            (([0, 10] : List ℚ).getD 1 0 - 2) /
              ((([0, 10] : List ℚ).getD 1 0 - 2) +
                (2 - ([0, 10] : List ℚ).getD 0 0))
          then 1 else 1 - 1)) :=
  ⟨by decide, by decide,
   claim2_amended_larger_gap_wins [0, 10] 2 1 ⟨streamZero, 0⟩ (by decide)
     (by decide) (by decide) (by decide)⟩


/-- C8: for a rendered pixel with pixel radius half the resolution, where
d is the distance the code computes for the pixel: at distance radius
minus one half the alpha is strictly between zero and 255; at distance
radius plus one the pixel is written fully transparent; at distance zero,
when the computed distance squares back to the squared grid distance, the
alpha is 255; every pixel whose depth inside the rim is at least one full
pixel gets alpha 255; and the alpha written by the pixel loop for an
inside pixel is exactly alphaFor of the radius and distance. -/
theorem claim8_alpha_boundary {Kind : Type} [Inhabited Kind] (ops : MathOps)
    (t : Terrain Kind) (sun : Option Light) (px x y : ℕ) (radius d : ℚ)
    (hx : x < px) (hy : y < px)
    (hradius : radius = (px : ℚ) / 2)
    (hd : d = ops.sqrtQ (sqDist ((x : ℚ), (y : ℚ)) (radius, radius))) :
    (d = radius - 1/2 → 0 < alphaFor radius d ∧ alphaFor radius d < 255) ∧
    (d = radius + 1 →
      renderPixel ops t radius (t.radius / radius) sun x y =
        some ((0, 0, 0, 0), none)) ∧
    (d = 0 → d ^ 2 = sqDist ((x : ℚ), (y : ℚ)) (radius, radius) →
      alphaFor radius d = 255) ∧
    (1 ≤ radius - d → alphaFor radius d = 255) ∧
    (d < radius → ∀ v,
      renderPixel ops t radius (t.radius / radius) sun x y = some v →
      v.1.2.2.2 = alphaFor radius d) := by
  refine ⟨?_, ?_, ?_, ?_, ?_⟩
  · intro h
    rw [h, alphaFor]
    rw [show radius - (radius - 1/2) = (1/2 : ℚ) by ring]
    rw [if_pos (by norm_num)]
    rw [show (255 : ℚ) * (1/2) = 255/2 by ring, ratToU8]
    rw [if_neg (by norm_num), if_neg (by norm_num)]
    have hfl : ⌊(255 : ℚ)/2⌋ = 127 := by
      rw [Int.floor_eq_iff] <;> norm_num
    rw [hfl]
    norm_num
  · intro h
    rw [renderPixel, ← hd, h]
    rw [if_neg (by linarith)]
  · intro h0 hsq
    rw [h0] at hsq
    rw [sqDist] at hsq
    have h1 : ((x : ℚ) - radius) ^ 2 = 0 := by
      nlinarith [sq_nonneg ((x : ℚ) - radius), sq_nonneg ((y : ℚ) - radius)]
    have h2 : (x : ℚ) = radius := by
      have := sq_eq_zero_iff.mp h1
      linarith [sub_eq_zero.mp this]
    have hpx : px = 2 * x := by
      have hc : (px : ℚ) = ((2 * x : ℕ) : ℚ) := by
        push_cast
        rw [hradius] at h2
        linarith
      exact_mod_cast hc
    have hx1 : 1 ≤ x := by omega
    have hr1 : 1 ≤ radius := by
      rw [hradius, hpx]
      push_cast
      have hxq : (1 : ℚ) ≤ (x : ℚ) := by exact_mod_cast hx1
      linarith
    rw [h0, alphaFor]
    rw [if_neg (by simp; linarith)]
  · intro h
    rw [alphaFor]
    rw [if_neg (by linarith)]
  · intro hlt v hv
    rw [renderPixel, ← hd, if_pos hlt] at hv
    rcases Option.map_eq_some'.mp hv with ⟨kc, _, rfl⟩
    rfl

/-- Witness for C8 at a four-pixel-wide image: the half-pixel rim distance
gives an intermediate alpha, distance radius plus one gives the
transparent pixel, the exact center gives alpha 255, and a deep inside
pixel gives alpha 255. -/
theorem claim8_witness :
    (0 < alphaFor 2 (3/2) ∧ alphaFor 2 (3/2) < 255) ∧
    renderPixel (constOps 3) terrA 2 (terrA.radius / 2) none 0 0 =
      some ((0, 0, 0, 0), none) ∧
    alphaFor 2 0 = 255 ∧
    alphaFor 2 1 = 255 :=
  ⟨(claim8_alpha_boundary (constOps (3/2)) terrA none 4 0 0 2 (3/2)
      (by norm_num) (by norm_num) (by norm_num) rfl).1 (by norm_num),
   (claim8_alpha_boundary (constOps 3) terrA none 4 0 0 2 3
      (by norm_num) (by norm_num) (by norm_num) rfl).2.1 (by norm_num),
   (claim8_alpha_boundary (constOps 0) terrA none 4 2 2 2 0
      (by norm_num) (by norm_num) (by norm_num) rfl).2.2.1 rfl
      (by norm_num [sqDist]),
   (claim8_alpha_boundary (constOps 1) terrA none 4 0 0 2 1
      (by norm_num) (by norm_num) (by norm_num) rfl).2.2.2.1 (by norm_num)⟩

/-- C9: whenever a render completes, the values of the per-category stats
map sum to exactly the number of pixels whose computed distance from the
image center is strictly less than half the resolution, and every pixel at
distance at least half the resolution is written as four zero bytes. -/
theorem claim9_stats_coverage {Kind : Type} [Inhabited Kind]
    [DecidableEq Kind] (ops : MathOps) (t : Terrain Kind) (px : ℕ)
    (sun : Option Light) (img : List (ℕ × ℕ × ℕ × ℕ))
    (stats : List (Kind × ℕ))
    (h : t.generate_planet ops px sun = some (img, stats)) :
    statsSum stats =
      (pixelCoords px).countP
        (fun c => decide (pixelInside ops ((px : ℚ) / 2) c)) ∧
    List.Forall₂
      (fun c b => ¬ pixelInside ops ((px : ℚ) / 2) c → b = (0, 0, 0, 0))
      (pixelCoords px) img := by
  rw [Terrain.generate_planet] at h
  rcases Option.map_eq_some'.mp h with ⟨rs, hrs, hpair⟩
  injection hpair with h1 h2
  subst h1
  subst h2
  have hf := renderAll_forall₂ ops t ((px : ℚ) / 2)
    (t.radius / ((px : ℚ) / 2)) sun (pixelCoords px) rs hrs
  constructor
  · rw [accumulateStats, statsSum_foldl]
    have hzero : statsSum ([] : List (Kind × ℕ)) = 0 := rfl
    rw [hzero, Nat.zero_add]
    refine (countP_eq_of_forall₂ hf ?_).symm
    intro c v hcv
    obtain ⟨cx, cy⟩ := c
    by_cases hin : pixelInside ops ((px : ℚ) / 2) (cx, cy)
    · rw [(renderPixel_cases hcv).1 hin]
      simp [hin]
    · rw [(renderPixel_cases hcv).2 hin]
      simp [hin]
  · rw [List.forall₂_map_right_iff]
    refine hf.imp ?_
    intro a b hab hni
    rw [(renderPixel_cases hab).2 hni]

/-- Witness for C9 on a two-by-two render whose four pixels all resolve
inside the body: the stats sum to four and the transparency condition
holds vacuously for every pixel. -/
theorem claim9_witness :
    terrC.generate_planet (constOps 0) 2 none =
      some ([(255, 0, 0, 255), (255, 0, 0, 255), (255, 0, 0, 255),
        (255, 0, 0, 255)], [(true, 4)]) ∧
    statsSum [(true, 4)] =
      (pixelCoords 2).countP
        (fun c => decide (pixelInside (constOps 0) (((2 : ℕ) : ℚ) / 2) c)) ∧
    List.Forall₂
      (fun c b => ¬ pixelInside (constOps 0) (((2 : ℕ) : ℚ) / 2) c →
        b = (0, 0, 0, 0))
      (pixelCoords 2)
      [(255, 0, 0, 255), (255, 0, 0, 255), (255, 0, 0, 255),
        (255, 0, 0, 255)] :=
  ⟨terrC_render,
   (claim9_stats_coverage (constOps 0) terrC 2 none _ _ terrC_render).1,
   (claim9_stats_coverage (constOps 0) terrC 2 none _ _ terrC_render).2⟩


/-- C10: for every terrain produced by Terrain generate from a sorted
non-degenerate palette, every stored point elevation lies inside the
randomized global elevation range; the interpolated elevation at any
query point with positive total distance is a distance-weighted
combination of stored elevations and so stays strictly below the last
expanded-gradient anchor elevation; hence the binary-search miss index is
always strictly below the gradient length, and the unchecked indexing at
an interior miss never reads out of bounds. -/
theorem claim10_interior_miss_in_bounds {Kind : Type} [Inhabited Kind]
    (ops : MathOps) (p : Planet Kind) (stream : ℕ → ℚ) (q : ℚ × ℚ)
    (hstream : ∀ n, 0 ≤ stream n ∧ stream n < 1)
    (hsqrt : ∀ s, 0 ≤ ops.sqrtQ s)
    (hne : p.colors ≠ [])
    (hsorted : List.Sorted byElev p.colors)
    (hlo : (p.colors.headD default).elevation ≤ -2)
    (hhi : 2 ≤ (p.colors.getLastD default).elevation)
    (hD : 0 < totalDistance ops (Terrain.generate ops p stream).points q) :
    (∀ pt ∈ (Terrain.generate ops p stream).points,
      (elevationRange p (stream 0)).1 ≤ pt.elevation ∧
        pt.elevation < (elevationRange p (stream 0)).2) ∧
    extrapolatedElevation ops (Terrain.generate ops p stream).points q <
      (((Terrain.generate ops p stream).elevations.map
        (fun e => e.elevation)).getD
        ((Terrain.generate ops p stream).elevations.length - 1) 0) ∧
    (∀ i, binSearch
        ((Terrain.generate ops p stream).elevations.map
          (fun e => e.elevation))
        (extrapolatedElevation ops
          (Terrain.generate ops p stream).points q) = Sum.inr i →
      i < (Terrain.generate ops p stream).elevations.length) := by
  obtain ⟨hpts, hanch, ⟨aR, haR, haRe⟩, hsortedE⟩ :=
    generate_terrain_facts ops p stream hstream hsqrt hne hsorted hlo hhi
  set t := Terrain.generate ops p stream with ht
  set re := (elevationRange p (stream 0)).2 with hre
  set lq := t.elevations.map (fun e => e.elevation) with hlq
  have hsq : List.Sorted (fun a b : ℚ => a ≤ b) lq :=
    sorted_map_elevation hsortedE
  have hmono := sorted_getD_mono lq hsq
  have hlqlen : lq.length = t.elevations.length := List.length_map _ _
  have hlen0 : 0 < t.elevations.length := List.length_pos.mpr (by
    intro h0
    rw [h0] at haR
    cases haR)
  have hmem : re ∈ lq := List.mem_map.mpr ⟨aR, haR, haRe⟩
  have hallq : ∀ x ∈ lq, x ≤ re := by
    intro x hx
    rcases List.mem_map.mp hx with ⟨a, ha, rfl⟩
    exact hanch a ha
  have hlast : lq.getD (lq.length - 1) 0 = re :=
    sorted_getD_last_eq lq re hsq hmem hallq
  have hextr : extrapolatedElevation ops t.points q < re :=
    extrapolatedElevation_lt ops t.points q re hsqrt
      (fun pt hpt => (hpts pt hpt).2) hD
  refine ⟨hpts, ?_, ?_⟩
  · rw [← hlqlen, hlast]
    exact hextr
  · intro i hi
    have hlt := binSearch_inr_lt_length lq
      (extrapolatedElevation ops t.points q) i hmono
      ⟨by omega, by rw [hlast]; exact hextr⟩ hi
    omega

/-- Witness for C10: with the two-anchor fixture palette, the all-zero
stream and a constant unit square root there are fifty stored points, the
total distance to the three nearest is three, and the theorem applies. -/
theorem claim10_witness :
    0 < totalDistance (constOps 1)
      (Terrain.generate (constOps 1) planetA streamZero).points (0, 0) ∧
    (∀ i, binSearch
        ((Terrain.generate (constOps 1) planetA streamZero).elevations.map
          (fun e => e.elevation))
        (extrapolatedElevation (constOps 1)
          (Terrain.generate (constOps 1) planetA streamZero).points (0, 0)) =
        Sum.inr i →
      i < (Terrain.generate (constOps 1) planetA
        streamZero).elevations.length) := by
  have hlen : (Terrain.generate (constOps 1) planetA
      streamZero).points.length =
      (genRangeNat 50 1000
        (generate_elevations (constOps 1) planetA.colors
          (elevationRange planetA (streamZero 0)).1
          (elevationRange planetA (streamZero 0)).2 ⟨streamZero, 2⟩).2).1 := by
    rw [show (Terrain.generate (constOps 1) planetA streamZero).points =
      (pointsLoop (constOps 1) planetA.radius
        (genRange 1 2 ⟨streamZero, 1⟩).1
        (elevationRange planetA (streamZero 0)).1
        (elevationRange planetA (streamZero 0)).2
        (genRangeNat 50 1000
          (generate_elevations (constOps 1) planetA.colors
            (elevationRange planetA (streamZero 0)).1
            (elevationRange planetA (streamZero 0)).2 ⟨streamZero, 2⟩).2).1 []
        (genRangeNat 50 1000
          (generate_elevations (constOps 1) planetA.colors
            (elevationRange planetA (streamZero 0)).1
            (elevationRange planetA (streamZero 0)).2
            ⟨streamZero, 2⟩).2).2).1 from rfl]
    rw [pointsLoop_length]
    simp
  have h50 : ∀ r : RngState, 50 ≤ (genRangeNat 50 1000 r).1 := by
    intro r
    rw [genRangeNat]
    exact Nat.le_add_right _ _
  have hk3 : (kNearest (Terrain.generate (constOps 1) planetA
      streamZero).points (0, 0) 3).length = 3 := by
    rw [length_kNearest, hlen]
    have := h50 (generate_elevations (constOps 1) planetA.colors
      (elevationRange planetA (streamZero 0)).1
      (elevationRange planetA (streamZero 0)).2 ⟨streamZero, 2⟩).2
    omega
  have hD : 0 < totalDistance (constOps 1)
      (Terrain.generate (constOps 1) planetA streamZero).points (0, 0) := by
    have htd : totalDistance (constOps 1)
        (Terrain.generate (constOps 1) planetA streamZero).points (0, 0) =
        ((kNearest (Terrain.generate (constOps 1) planetA
          streamZero).points (0, 0) 3).length : ℚ) := by
      rw [totalDistance]
      exact sum_map_one _
    rw [htd, hk3]
    norm_num
  exact ⟨hD,
    (claim10_interior_miss_in_bounds (constOps 1) planetA streamZero (0, 0)
      (by intro n; constructor <;> norm_num [streamZero])
      (by intro s; norm_num [constOps])
      (by simp [planetA, palA])
      (by decide)
      (by simp [planetA, palA])
      (by simp [planetA, palA])
      hD).2.2⟩

end Magrathea
